import Mathlib

/-!
Shallow embedding of the sheet-to-ledger normalization pipeline of
`src/streamlit_app.py` (a pandas/streamlit expense tracker), together with
theorems settling the specification claims about it.

Conventions of the embedding:
* a spreadsheet cell is a scalar: a number, a string, or missing (pandas NaN);
* pandas Series/DataFrame columns become Lean lists; `errors="coerce"`
  becomes `Option`;
* library collaborators (the JSON parser, the network client) become function
  parameters, so theorems can quantify over their behaviour.
-/

namespace ExpenseApp

/-- Cell value of one spreadsheet cell: a number, a string (gspread delivers
empty cells as the empty string when `empty2zero=False`), or a missing value
(pandas `NaN`, which arises from ragged records). -/
inductive Cell where
  | num (q : Rat)
  | str (s : String)
  | na
deriving Repr, DecidableEq

/-- Timestamp as parsed by `pd.to_datetime` on the date column
(calendar fields; sub-second precision is not exercised by the app). -/
structure Timestamp where
  year : Nat
  month : Nat
  day : Nat
  hour : Nat
  minute : Nat
  second : Nat
deriving Repr, DecidableEq

/-- Calendar date, the result of `.dt.date` on a datetime column. -/
structure CalDate where
  year : Nat
  month : Nat
  day : Nat
deriving Repr, DecidableEq

/-- Numeric key embedding the lexicographic (year, month, day, h, m, s)
order of timestamps, used for `Series.max` comparisons. -/
def Timestamp.key (t : Timestamp) : Nat :=
  ((((t.year * 13 + t.month) * 32 + t.day) * 24 + t.hour) * 60 + t.minute) * 60 + t.second

/-- Calendar-date component of a timestamp (`.dt.date`). -/
def Timestamp.date (t : Timestamp) : CalDate :=
  { year := t.year, month := t.month, day := t.day }

/-- Per-character lower-casing, Python `str.lower()` and pandas
`.str.lower()` (defined over the character list so proofs can evaluate
it). -/
def strLower (s : String) : String :=
  String.mk (s.data.map Char.toLower)

/-- Whitespace trim of both ends, Python `str.strip()` and pandas
`.str.strip()`. -/
def strTrim (s : String) : String :=
  String.mk (((s.data.dropWhile Char.isWhitespace).reverse.dropWhile Char.isWhitespace).reverse)

/-- First `n` characters removed, Python `s[n:]`. -/
def strDrop (s : String) (n : Nat) : String :=
  String.mk (s.data.drop n)

/-- Last `n` characters removed, Python `s[:-n]` on a string of length
at least `n` (and the empty string otherwise, matching slicing). -/
def strDropRight (s : String) (n : Nat) : String :=
  String.mk (s.data.take (s.data.length - n))

/-- Python `s.startswith(p)`. -/
def strStartsWith (s p : String) : Bool :=
  p.data.isPrefixOf s.data

/-- Python `s.endswith(p)`. -/
def strEndsWith (s p : String) : Bool :=
  (p.data.reverse).isPrefixOf s.data.reverse

/-- Numeric value of a list of decimal digit characters. -/
def digitsVal (ds : List Char) : Nat :=
  ds.foldl (fun a c => a * 10 + (c.toNat - '0'.toNat)) 0

/-- Unsigned decimal literal: digits with an optional single decimal point,
at least one digit overall (models what `float(...)` accepts, less exponent
forms, which the app's data never uses). -/
def parseUnsigned (cs : List Char) : Option Rat :=
  let intPart := cs.takeWhile Char.isDigit
  let rest := cs.dropWhile Char.isDigit
  match rest with
  | [] => if intPart.isEmpty then none else some (digitsVal intPart : Rat)
  | '.' :: frac =>
      if frac.all Char.isDigit && !(intPart.isEmpty && frac.isEmpty) then
        some ((digitsVal intPart : Rat) + (digitsVal frac : Rat) / ((10 : Rat) ^ frac.length))
      else none
  | _ => none

/-- Numeric coercion of a string, modelling `pd.to_numeric(errors="coerce")`
on a string cell: surrounding whitespace tolerated, optional sign, decimal
literal; anything else is undefined. -/
def parseNumStr (s : String) : Option Rat :=
  match (strTrim s).toList with
  | [] => none
  | '-' :: rest => (parseUnsigned rest).map (fun q => -q)
  | '+' :: rest => parseUnsigned rest
  | cs => parseUnsigned cs

/-- Per-cell semantics of `pd.to_numeric(col, errors="coerce")`: numbers pass
through, strings are parsed, missing stays missing. -/
def toNumeric : Cell → Option Rat
  | Cell.num q => some q
  | Cell.str s => parseNumStr s
  | Cell.na => none

/-- Leap-year test of the Gregorian calendar. -/
def isLeap (y : Nat) : Bool :=
  (y % 4 == 0 && y % 100 != 0) || (y % 400 == 0)

/-- Number of days of month `m` of year `y`. -/
def daysInMonth (y m : Nat) : Nat :=
  if m == 2 then (if isLeap y then 29 else 28)
  else if m == 4 || m == 6 || m == 9 || m == 11 then 30
  else 31

/-- Two decimal digit characters to a number, failing on non-digits. -/
def twoDigits (a b : Char) : Option Nat :=
  if a.isDigit && b.isDigit then some (digitsVal [a, b]) else none

/-- Four decimal digit characters to a number, failing on non-digits. -/
def fourDigits (a b c d : Char) : Option Nat :=
  if a.isDigit && b.isDigit && c.isDigit && d.isDigit then
    some (digitsVal [a, b, c, d]) else none

/-- Range validity of a parsed calendar timestamp, as `pd.to_datetime`
rejects impossible dates (such as `2024-02-30`). -/
def validTimestamp (t : Timestamp) : Bool :=
  1 ≤ t.month && t.month ≤ 12 && 1 ≤ t.day && t.day ≤ daysInMonth t.year t.month
    && t.hour < 24 && t.minute < 60 && t.second < 60

/-- Timestamp parse of a string, modelling `pd.to_datetime(errors="coerce")`
on the ISO formats `YYYY-MM-DD` and `YYYY-MM-DD HH:MM:SS` the sheet uses;
any other string is unparseable and becomes undefined. -/
def parseDateStr (s : String) : Option Timestamp :=
  match (strTrim s).toList with
  | [y1, y2, y3, y4, '-', m1, m2, '-', d1, d2] =>
      match fourDigits y1 y2 y3 y4, twoDigits m1 m2, twoDigits d1 d2 with
      | some y, some mo, some d =>
          let t : Timestamp := ⟨y, mo, d, 0, 0, 0⟩
          if validTimestamp t then some t else none
      | _, _, _ => none
  | [y1, y2, y3, y4, '-', m1, m2, '-', d1, d2, ' ', h1, h2, ':', n1, n2, ':', s1, s2] =>
      match fourDigits y1 y2 y3 y4, twoDigits m1 m2, twoDigits d1 d2,
            twoDigits h1 h2, twoDigits n1 n2, twoDigits s1 s2 with
      | some y, some mo, some d, some h, some n, some sec =>
          let t : Timestamp := ⟨y, mo, d, h, n, sec⟩
          if validTimestamp t then some t else none
      | _, _, _, _, _, _ => none
  | _ => none

/-- Per-cell semantics of `pd.to_datetime(col, errors="coerce")`: strings are
parsed, everything else (missing, and the numeric epoch interpretation the
app never feeds it) is undefined. -/
def toDatetime : Cell → Option Timestamp
  | Cell.str s => parseDateStr s
  | _ => none

/-- Day of week (0 = Sunday) of a Gregorian date, Sakamoto's method,
the computation behind `.dt.day_name()`. -/
def dayOfWeek (y m d : Nat) : Nat :=
  let offs := [0, 3, 2, 5, 0, 3, 5, 1, 4, 6, 2, 4]
  let y2 := if m < 3 then y - 1 else y
  (y2 + y2 / 4 - y2 / 100 + y2 / 400 + offs.getD (m - 1) 0 + d) % 7

/-- Full weekday name of a timestamp, as produced by `.dt.day_name()`. -/
def dayName (t : Timestamp) : String :=
  ["Sunday", "Monday", "Tuesday", "Wednesday", "Thursday", "Friday",
    "Saturday"].getD (dayOfWeek t.year t.month t.day) ""

/-- Decimal rendering of a number zero-padded on the left to width `w`. -/
def padNat (w n : Nat) : String :=
  let s := toString n
  String.mk (List.replicate (w - s.length) '0') ++ s

/-- Year-month label of a timestamp, format `YYYY-MM`, as produced by
`.dt.to_period("M").astype(str)` on a defined datetime. -/
def monthStr (t : Timestamp) : String :=
  padNat 4 t.year ++ "-" ++ padNat 2 t.month

/-- Python `str()` of a cell, the per-element semantics of `.astype(str)`:
strings pass through, a missing value renders as the literal `"nan"`, and a
number renders as its decimal text (integral numbers exactly; the app's type
column holds no non-integral numbers, rendered here as num/den). -/
def cellToStr : Cell → String
  | Cell.str s => s
  | Cell.na => "nan"
  | Cell.num q => if q.den == 1 then toString q.num
      else toString q.num ++ "/" ++ toString q.den

/-- Raw record table: the DataFrame built from `ws.get_all_records(...)` —
a header list (row 1 of the sheet) and one cell list per record, aligned
with the headers. -/
structure Table where
  headers : List String
  rows : List (List Cell)
deriving Repr, DecidableEq

/-- Empty table, `pd.DataFrame()`. -/
def Table.empty : Table := ⟨[], []⟩

/-- Cell of column `c` of a row, by header name (`work[c]` at one row);
headers are assumed unique, so the first match is the column. -/
def cellOf (headers : List String) (row : List Cell) (c : String) : Cell :=
  match headers.findIdx? (fun h => h == c) with
  | some i => row.getD i Cell.na
  | none => Cell.na

/-- Case-insensitive header lookup, `{c.lower(): c for c in df.columns}`
followed by `.get(key)`: the original text of the last header whose
lower-casing equals `key` (dict comprehension — last seen wins). -/
def colMapGet (headers : List String) (key : String) : Option String :=
  (headers.filter (fun c => strLower c == key)).getLast?

/-- Resolved date column: `col_map.get("datetime") or col_map.get("date")`
(the stored original header is never the empty string for these keys, so
Python truthiness coincides with presence). -/
def date_col (headers : List String) : Option String :=
  match colMapGet headers "datetime" with
  | some c => some c
  | none => colMapGet headers "date"

/-- Resolved amount column: `col_map.get("amount") or col_map.get("amt")`. -/
def amount_col (headers : List String) : Option String :=
  match colMapGet headers "amount" with
  | some c => some c
  | none => colMapGet headers "amt"

/-- Resolved type column: `col_map.get("type")`. -/
def type_col (headers : List String) : Option String :=
  colMapGet headers "type"

/-- Resolved message column: `col_map.get("message") or col_map.get("msg")`. -/
def message_col (headers : List String) : Option String :=
  match colMapGet headers "message" with
  | some c => some c
  | none => colMapGet headers "msg"

/-- Whether column `i` of the table is numeric-dtyped, the membership test of
`work.select_dtypes(include="number")`: every cell of the column is a number
or missing (a column that holds any string is object-dtyped). -/
def isNumericCol (t : Table) (i : Nat) : Bool :=
  t.rows.all (fun r =>
    match r.getD i Cell.na with
    | Cell.num _ => true
    | Cell.na => true
    | Cell.str _ => false)

/-- Index of the fallback amount column, `work.select_dtypes(include="number").columns[0]`:
the first column, in original header order, that is numeric-dtyped; absent
when no column is. -/
def fallbackNumIdx (t : Table) : Option Nat :=
  (List.range t.headers.length).find? (fun i => isNumericCol t i)

/-- Amount of one row (lines 105–109): `pd.to_numeric(work[amount_col], errors="coerce")`
when an amount column was resolved, else the first numeric-dtyped column
coerced likewise, else `pd.NA`. -/
def rowAmount (t : Table) (r : List Cell) : Option Rat :=
  match amount_col t.headers with
  | some c => toNumeric (cellOf t.headers r c)
  | none =>
      match fallbackNumIdx t with
      | some i => toNumeric (r.getD i Cell.na)
      | none => none

/-- DateTime of one row (lines 110–113): `pd.to_datetime(work[date_col], errors="coerce")`
when a date column was resolved, else `pd.NaT`. -/
def rowDateTime (t : Table) (r : List Cell) : Option Timestamp :=
  match date_col t.headers with
  | some c => toDatetime (cellOf t.headers r c)
  | none => none

/-- Sign-based fallback classification (lines 122–124): default `"unknown"`,
then the `.loc` masks set `"debit"` where Amount < 0 and `"credit"` where
Amount > 0 (the two masks are disjoint; a missing Amount satisfies
neither comparison). -/
def signType : Option Rat → String
  | none => "unknown"
  | some q => if q < 0 then "debit" else if q > 0 then "credit" else "unknown"

/-- Type of one row (lines 119–124): the type column stringified,
lower-cased and trimmed when one was resolved, else the sign-based
fallback. -/
def rowType (t : Table) (r : List Cell) : String :=
  match type_col t.headers with
  | some c => strTrim (strLower (cellToStr (cellOf t.headers r c)))
  | none => signType (rowAmount t r)

/-- One normalized ledger row of the working table `work`; the field `Ty`
embeds the working column named Type (a Lean keyword). -/
structure LedgerRow where
  Amount : Option Rat
  DateTime : Option Timestamp
  Date : Option CalDate
  Month : String
  Weekday : Option String
  Ty : String
deriving Repr, DecidableEq

/-- Derivation of one ledger row from one raw row (the per-row effect of
lines 104–124: Date is `.dt.date`, Month is `.dt.to_period("M").astype(str)`
which renders `pd.NaT` as the literal string `"NaT"`, Weekday is
`.dt.day_name()`). -/
def mkRow (t : Table) (r : List Cell) : LedgerRow :=
  let dt := rowDateTime t r
  { Amount := rowAmount t r
    DateTime := dt
    Date := dt.map Timestamp.date
    Month := match dt with
      | some ts => monthStr ts
      | none => "NaT"
    Weekday := dt.map dayName
    Ty := rowType t r }

/-- The normalization pipeline (lines 104–124): `work = df.copy()` followed
by the column assignments — each raw row yields exactly one ledger row, in
order. -/
def normalize (t : Table) : List LedgerRow :=
  t.rows.map (mkRow t)

/-- Metric `total_debit` (line 129): `work.loc[work["Type"]=="debit","Amount"].sum()`;
pandas `.sum()` skips undefined values and sums an empty selection to 0. -/
def total_debit (rows : List LedgerRow) : Rat :=
  ((rows.filter (fun r => r.Ty == "debit")).filterMap (fun r => r.Amount)).sum

/-- Metric `total_credit` (line 130). -/
def total_credit (rows : List LedgerRow) : Rat :=
  ((rows.filter (fun r => r.Ty == "credit")).filterMap (fun r => r.Amount)).sum

/-- Metric `txn_count` (line 131): `len(work)`. -/
def txn_count (rows : List LedgerRow) : Nat :=
  rows.length

/-- One step of the running maximum of `Series.max` over timestamps. -/
def maxStep (acc : Option Timestamp) (ts : Timestamp) : Option Timestamp :=
  match acc with
  | none => some ts
  | some m => if m.key < ts.key then some ts else some m

/-- Metric `last_update` (line 132): `work["DateTime"].max()` — the maximum
of the defined timestamps, `NaT` (undefined) when none is defined. -/
def last_update (rows : List LedgerRow) : Option Timestamp :=
  (rows.filterMap (fun r => r.DateTime)).foldl maxStep none

/-- Sum of the defined Amounts of the rows of one (Month, Type) group;
pandas group `.sum()` skips undefined values and sums an all-undefined or
empty group to 0. -/
def groupSum (rows : List LedgerRow) (m ty : String) : Rat :=
  ((rows.filter (fun r => r.Month == m && r.Ty == ty)).filterMap (fun r => r.Amount)).sum

/-- Lexicographic order on (Month, Type) group keys, the key order of
`groupby(["Month", "Type"])`. -/
def keyLE (a b : String × String) : Prop :=
  a.1 < b.1 ∨ (a.1 = b.1 ∧ a.2 ≤ b.2)

instance : DecidableRel keyLE := fun a b => by
  unfold keyLE
  infer_instance

/-- Distinct (Month, Type) keys of the table in groupby order. -/
def groupKeys (rows : List LedgerRow) : List (String × String) :=
  ((rows.map (fun r => (r.Month, r.Ty))).dedup).insertionSort keyLE

/-- Line 145, `monthly = work.groupby(["Month","Type"])["Amount"].sum().reset_index()`:
one (key, sum) entry per distinct (Month, Type) combination. -/
def monthly (rows : List LedgerRow) : List ((String × String) × Rat) :=
  (groupKeys rows).map (fun k => (k, groupSum rows k.1 k.2))

/-- Row labels of the pivot, `pivot(index="Month", ...)`: the distinct
months of the grouped table, ascending. -/
def pivotMonths (rows : List LedgerRow) : List String :=
  (((monthly rows).map (fun g => g.1.1)).dedup).insertionSort (· ≤ ·)

/-- Column labels of the pivot, `pivot(columns="Type", ...)`: the distinct
types of the grouped table, ascending. -/
def pivotTypes (rows : List LedgerRow) : List String :=
  (((monthly rows).map (fun g => g.1.2)).dedup).insertionSort (· ≤ ·)

/-- Line 147, `monthly.pivot(index="Month", columns="Type", values="Amount").fillna(0)`:
one row per distinct Month, one cell per distinct Type, the grouped sum
where the combination exists and 0 where it does not. -/
def monthly_pivot (rows : List LedgerRow) : List (String × List (String × Rat)) :=
  (pivotMonths rows).map (fun m =>
    (m, (pivotTypes rows).map (fun ty =>
      (ty, match (monthly rows).lookup (m, ty) with
           | some v => v
           | none => 0))))

/-- A spreadsheet as the client sees it: worksheets in tab order, each a
title with its record table. -/
structure Spreadsheet where
  worksheets : List (String × Table)

/-- Lines 48–54, `get_sheet_titles`: an empty sheet id short-circuits to the
empty list before the client (`fetch`, modelling `gc.open_by_key` +
`sh.worksheets()`) is consulted; otherwise client failures propagate to the
caller. -/
def get_sheet_titles (fetch : String → Except String (List String))
    (sheet_id : String) : Except String (List String) :=
  if sheet_id = "" then Except.ok [] else fetch sheet_id

/-- Lines 56–72, `load_sheet_as_df`: an empty sheet id short-circuits to the
empty table before the client (`openByKey`, modelling `gc.open_by_key`) is
consulted; an open failure degrades to the empty table; a named worksheet is
selected when present (an empty name is falsy and selects the first
worksheet), any lookup failure falls back to the first worksheet.  The
degenerate spreadsheet with no worksheets yields the empty table (in the
source that path raises out of scope of the claims). -/
def load_sheet_as_df (openByKey : String → Except String Spreadsheet)
    (sheet_id : String) (worksheet_name : Option String) : Table :=
  if sheet_id = "" then Table.empty
  else
    match openByKey sheet_id with
    | Except.error _ => Table.empty
    | Except.ok sh =>
        let first := (sh.worksheets.head?).map (fun w => w.2)
        let chosen :=
          match worksheet_name with
          | some nm =>
              if nm = "" then first
              else
                match sh.worksheets.find? (fun w => w.1 == nm) with
                | some w => some w.2
                | none => first
          | none => first
        match chosen with
        | some tbl => tbl
        | none => Table.empty

/-- Value stored in the secret store under a key: either already a
structured mapping (a parsed JSON value) or a raw string. -/
inductive SecretVal (J : Type) where
  | dict (j : J)
  | str (s : String)

/-- Failure of credential resolution: the fixed key is absent
(`KeyError`), or both JSON parse attempts failed (the second
`json.loads` error propagates). -/
inductive ConfigError where
  | keyMissing
  | parseError (msg : String)
deriving Repr, DecidableEq

/-- Python `s.replace('\\n', '\n')`: every literal two-character sequence
backslash-n becomes one newline, scanning left to right without overlap. -/
def replaceBackslashN : List Char → List Char
  | '\\' :: 'n' :: rest => '\n' :: replaceBackslashN rest
  | c :: rest => c :: replaceBackslashN rest
  | [] => []

/-- String form of `replaceBackslashN`. -/
def fixNewlines (s : String) : String :=
  String.mk (replaceBackslashN s.toList)

/-- One conditional unwrapping step of the resolver, `if s.startswith(qqq)
and s.endswith(qqq): s = s[3:-3].strip()` where `qqq` is `q` three times
(Python's `s[3:-3]` of a string shorter than 6 characters is empty, as is
`drop 3` then `dropRight 3`). -/
def stripWrap (q : Char) (s : String) : String :=
  let qqq := String.mk [q, q, q]
  if strStartsWith s qqq && strEndsWith s qqq then strTrim (strDropRight (strDrop s 3) 3)
  else s

/-- Cleaned credential string of the source (lines 30–34): trim, then strip
one layer of triple-double-quote wrapping if present on both ends, then one
layer of triple-single-quote wrapping if present on both ends. -/
def cleanSecret (s : String) : String :=
  stripWrap '\'' (stripWrap '"' (strTrim s))

/-- Lines 24–38, `load_service_account_from_secrets`, with the JSON library
as the `parse` parameter and the secret store as the `secrets` parameter: a
missing key fails, a stored mapping returns unchanged, a stored string is
cleaned and parsed strictly, retried with literal backslash-n sequences
replaced by newlines, the second parse error propagating. -/
def load_service_account_from_secrets {J : Type}
    (parse : String → Except String J)
    (secrets : String → Option (SecretVal J)) : Except ConfigError J :=
  match secrets "gcp_service_account" with
  | none => Except.error ConfigError.keyMissing
  | some (SecretVal.dict j) => Except.ok j
  | some (SecretVal.str raw) =>
      let s := cleanSecret raw
      match parse s with
      | Except.ok j => Except.ok j
      | Except.error _ =>
          match parse (fixNewlines s) with
          | Except.ok j => Except.ok j
          | Except.error e => Except.error (ConfigError.parseError e)

/-- Modelled from the claim's words for comparison: the resolver as claim C9
describes it, stripping surrounding whitespace and ONE layer of
triple-double-quote or triple-single-quote wrapping present on both ends
(rather than the source's one layer of each in sequence), then parsing as
the source does. -/
def resolve_credentials_claim {J : Type}
    (parse : String → Except String J)
    (secrets : String → Option (SecretVal J)) : Except ConfigError J :=
  match secrets "gcp_service_account" with
  | none => Except.error ConfigError.keyMissing
  | some (SecretVal.dict j) => Except.ok j
  | some (SecretVal.str raw) =>
      let t := strTrim raw
      let s :=
        if strStartsWith t "\"\"\"" && strEndsWith t "\"\"\"" then strTrim (strDropRight (strDrop t 3) 3)
        else if strStartsWith t "\x27\x27\x27" && strEndsWith t "\x27\x27\x27" then strTrim (strDropRight (strDrop t 3) 3)
        else t
      match parse s with
      | Except.ok j => Except.ok j
      | Except.error _ =>
          match parse (fixNewlines s) with
          | Except.ok j => Except.ok j
          | Except.error e => Except.error (ConfigError.parseError e)

/-- Minimal stand-in for the JSON library used to instantiate the parser
parameter on concrete inputs: a single object value. -/
inductive MiniJson where
  | obj
deriving Repr, DecidableEq

/-- Minimal strict parser accepting exactly the object text, with the
library's tolerance for surrounding whitespace. -/
def miniParse (s : String) : Except String MiniJson :=
  if strTrim s = "\x7b\x7d" then Except.ok MiniJson.obj else Except.error "Expecting value"

/-- Fixture: the first scenario table of the spec (headers Date, Amount,
Type, Message; one row). -/
def sampleTable : Table :=
  ⟨["Date", "Amount", "Type", "Message"],
   [[Cell.str "2024-01-05", Cell.str "-50", Cell.str "Debit ", Cell.str "coffee"]]⟩

/-- Fixture: the fallback scenario table of the spec (headers timestamp and
value; no recognized amount column, value numeric-dtyped). -/
def fallbackTable : Table :=
  ⟨["timestamp", "value"],
   [[Cell.str "x", Cell.num 5], [Cell.str "y", Cell.num (-3)], [Cell.str "z", Cell.na]]⟩

/-- Fixture: a table whose date cell is unparseable. -/
def badDateTable : Table :=
  ⟨["Date", "Amount"], [[Cell.str "not-a-date", Cell.str "7"]]⟩

/-- Fixture: a table with an explicit type column holding a missing cell and
an empty cell. -/
def typeCellTable : Table :=
  ⟨["Type", "Amount"], [[Cell.na, Cell.num 1], [Cell.str "", Cell.num 2]]⟩

/-- Modelled from the words of claim C6, for comparison with the code path:
the distinct Month values of the normalized rows, ascending in plain string
order. -/
def claimMonths (rows : List LedgerRow) : List String :=
  ((rows.map (fun r => r.Month)).dedup).insertionSort (fun a b => a ≤ b)

/-- Modelled from the words of claim C6, for comparison with the code path:
the distinct Type values of the normalized rows, ascending. -/
def claimTypes (rows : List LedgerRow) : List String :=
  ((rows.map (fun r => r.Ty)).dedup).insertionSort (fun a b => a ≤ b)

/-- Fixture: a secret store whose credential entry is wrapped in nested
triple quotes of both kinds. -/
def cexSecrets : String → Option (SecretVal MiniJson) :=
  fun k =>
    if k = "gcp_service_account" then
      some (SecretVal.str "\"\"\"\x27\x27\x27\x7b\x7d\x27\x27\x27\"\"\"")
    else none

/-- Case analysis of the sign-based fallback classification. -/
theorem signType_cases (a : Option Rat) :
    (signType a = "debit" ↔ ∃ q, a = some q ∧ q < 0) ∧
    (signType a = "credit" ↔ ∃ q, a = some q ∧ 0 < q) ∧
    (signType a = "unknown" ↔ a = none ∨ a = some 0) := by
  cases a with
  | none =>
      refine ⟨⟨fun h => absurd h (by decide), ?_⟩,
              ⟨fun h => absurd h (by decide), ?_⟩,
              ⟨fun _ => Or.inl rfl, fun _ => rfl⟩⟩
      · rintro ⟨q, hq, -⟩; exact Option.noConfusion hq
      · rintro ⟨q, hq, -⟩; exact Option.noConfusion hq
  | some q =>
      rcases lt_trichotomy q 0 with hneg | rfl | hpos
      · have hs : signType (some q) = "debit" := by simp [signType, hneg]
        rw [hs]
        refine ⟨⟨fun _ => ⟨q, rfl, hneg⟩, fun _ => rfl⟩,
                ⟨fun h => absurd h (by decide), ?_⟩,
                ⟨fun h => absurd h (by decide), ?_⟩⟩
        · rintro ⟨q', hq', hpos⟩
          cases Option.some_injective _ hq'
          exact absurd hneg (not_lt.mpr hpos.le)
        · rintro (h | h)
          · exact Option.noConfusion h
          · cases Option.some_injective _ h
            exact absurd hneg (by norm_num)
      · have hs : signType (some (0 : Rat)) = "unknown" := by simp [signType]
        rw [hs]
        refine ⟨⟨fun h => absurd h (by decide), ?_⟩,
                ⟨fun h => absurd h (by decide), ?_⟩,
                ⟨fun _ => Or.inr rfl, fun _ => rfl⟩⟩
        · rintro ⟨q', hq', hneg⟩
          cases Option.some_injective _ hq'
          exact absurd hneg (by norm_num)
        · rintro ⟨q', hq', hpos⟩
          cases Option.some_injective _ hq'
          exact absurd hpos (by norm_num)
      · have hs : signType (some q) = "credit" := by
          simp [signType, hpos, not_lt.mpr hpos.le]
        rw [hs]
        refine ⟨⟨fun h => absurd h (by decide), ?_⟩,
                ⟨fun _ => ⟨q, rfl, hpos⟩, fun _ => rfl⟩,
                ⟨fun h => absurd h (by decide), ?_⟩⟩
        · rintro ⟨q', hq', hneg⟩
          cases Option.some_injective _ hq'
          exact absurd hneg (not_lt.mpr hpos.le)
        · rintro (h | h)
          · exact Option.noConfusion h
          · cases Option.some_injective _ h
            exact absurd hpos (by norm_num)

/-- C1: for every raw record table and column map, normalization returns a
table with exactly the same number of rows as the input, derived 1:1 in the
same order — no row is dropped or added regardless of malformed cell
values. -/
theorem C1_row_count (t : Table) :
    (normalize t).length = t.rows.length ∧
    ∀ i : Nat, (normalize t)[i]? = (t.rows[i]?).map (mkRow t) := by
  constructor
  · simp [normalize]
  · intro i
    simp [normalize]

/-- C2: for every normalized row, when no type column was resolved, Type is
debit exactly when Amount is defined and strictly negative, credit exactly
when Amount is defined and strictly positive, and unknown exactly when
Amount is undefined or zero. -/
theorem C2_sign_classification (t : Table) (ht : type_col t.headers = none)
    (row : LedgerRow) (hrow : row ∈ normalize t) :
    (row.Ty = "debit" ↔ ∃ q, row.Amount = some q ∧ q < 0) ∧
    (row.Ty = "credit" ↔ ∃ q, row.Amount = some q ∧ 0 < q) ∧
    (row.Ty = "unknown" ↔ row.Amount = none ∨ row.Amount = some 0) := by
  rcases List.mem_map.mp hrow with ⟨r, hr, rfl⟩
  have hTy : (mkRow t r).Ty = signType (rowAmount t r) := by
    simp [mkRow, rowType, ht]
  have hAm : (mkRow t r).Amount = rowAmount t r := rfl
  rw [hTy, hAm]
  exact signType_cases (rowAmount t r)

/-- Witness for C2 at the fallback scenario table: the row with value -3 is
classified debit. -/
theorem C2_sign_classification_witness :
    (mkRow fallbackTable [Cell.str "y", Cell.num (-3)]).Ty = "debit" ∧
    ∃ q, (mkRow fallbackTable [Cell.str "y", Cell.num (-3)]).Amount = some q ∧ q < 0 := by
  have h := C2_sign_classification fallbackTable (by decide)
      (mkRow fallbackTable [Cell.str "y", Cell.num (-3)]) (by decide)
  exact ⟨h.1.mpr ⟨-3, by decide, by norm_num⟩, h.1.mp (by decide)⟩

/-- C4: for every normalized row, Month is the year-month label YYYY-MM of
DateTime when DateTime is defined, and the exact literal string NaT when
DateTime is undefined, in which case Date and Weekday are also undefined. -/
theorem C4_month_label (t : Table) (row : LedgerRow) (hrow : row ∈ normalize t) :
    (row.DateTime = none → row.Month = "NaT" ∧ row.Date = none ∧ row.Weekday = none) ∧
    (∀ ts, row.DateTime = some ts →
       row.Month = padNat 4 ts.year ++ "-" ++ padNat 2 ts.month ∧
       row.Date = some ts.date ∧ row.Weekday = some (dayName ts)) := by
  rcases List.mem_map.mp hrow with ⟨r, hr, rfl⟩
  have hDT : (mkRow t r).DateTime = rowDateTime t r := rfl
  cases hdt : rowDateTime t r with
  | none =>
      constructor
      · intro _
        refine ⟨?_, ?_, ?_⟩ <;> simp [mkRow, hdt]
      · intro ts hts
        rw [hDT, hdt] at hts
        exact Option.noConfusion hts
  | some ts0 =>
      constructor
      · intro hnone
        rw [hDT, hdt] at hnone
        exact Option.noConfusion hnone
      · intro ts hts
        rw [hDT, hdt] at hts
        cases Option.some_injective _ hts
        refine ⟨?_, ?_, ?_⟩ <;> simp [mkRow, hdt, monthStr]

/-- Witness for C4 at the unparseable-date fixture: DateTime is undefined,
so Month is the literal NaT and Date and Weekday are undefined. -/
theorem C4_month_label_witness :
    (mkRow badDateTable [Cell.str "not-a-date", Cell.str "7"]).Month = "NaT" ∧
    (mkRow badDateTable [Cell.str "not-a-date", Cell.str "7"]).Date = none ∧
    (mkRow badDateTable [Cell.str "not-a-date", Cell.str "7"]).Weekday = none :=
  (C4_month_label badDateTable _ (by decide)).1 (by decide)

/-- C8: for an empty spreadsheet identifier, both client operations return
empty — for every behaviour of the underlying network client, including an
always-failing one, so no network or spreadsheet access can influence the
result. -/
theorem C8_empty_sheet_id (fetch : String → Except String (List String))
    (openByKey : String → Except String Spreadsheet) (nm : Option String) :
    get_sheet_titles fetch "" = Except.ok [] ∧
    load_sheet_as_df openByKey "" nm = Table.empty :=
  ⟨rfl, rfl⟩

/-- C10: whenever a type column is resolved, every row Type is the
stringified, lower-cased, trimmed type cell (sign inference is never
applied); a missing type cell yields the literal string nan and an empty
cell yields the empty string. -/
theorem C10_type_column_verbatim (t : Table) (c : String)
    (hc : type_col t.headers = some c) (r : List Cell) (hr : r ∈ t.rows) :
    (mkRow t r).Ty = strTrim (strLower (cellToStr (cellOf t.headers r c))) ∧
    (cellOf t.headers r c = Cell.na → (mkRow t r).Ty = "nan") ∧
    (cellOf t.headers r c = Cell.str "" → (mkRow t r).Ty = "") := by
  have h1 : (mkRow t r).Ty = strTrim (strLower (cellToStr (cellOf t.headers r c))) := by
    simp [mkRow, rowType, hc]
  refine ⟨h1, fun hna => ?_, fun hemp => ?_⟩
  · rw [h1, hna]; decide
  · rw [h1, hemp]; decide

/-- Witness for C10 at the type-cell fixture: the missing cell yields nan,
the empty cell yields the empty string. -/
theorem C10_type_column_verbatim_witness :
    (mkRow typeCellTable [Cell.na, Cell.num 1]).Ty = "nan" ∧
    (mkRow typeCellTable [Cell.str "", Cell.num 2]).Ty = "" :=
  ⟨(C10_type_column_verbatim typeCellTable "Type" (by decide) _ (by decide)).2.1 (by decide),
   (C10_type_column_verbatim typeCellTable "Type" (by decide) _ (by decide)).2.2 (by decide)⟩

/-- Last element of a filtered list: the unique decomposition with no later
match (dict-comprehension semantics, last seen wins). -/
theorem getLast?_filter_iff (p : String → Bool) (l : List String) (c : String) :
    (l.filter p).getLast? = some c ↔
      ∃ pre post, l = pre ++ c :: post ∧ p c = true ∧ ∀ x ∈ post, p x = false := by
  induction l using List.reverseRecOn with
  | nil => simp
  | append_singleton l a ih =>
      by_cases hpa : p a = true
      · have hfa : (l ++ [a]).filter p = l.filter p ++ [a] := by
          simp [List.filter_append, hpa]
        rw [hfa, List.getLast?_concat]
        constructor
        · intro h
          injection h with h2
          exact ⟨l, [], by rw [h2], by rw [← h2]; exact hpa, by simp⟩
        · rintro ⟨pre, post, heq, hpc, hpost⟩
          rcases List.eq_nil_or_concat post with rfl | ⟨post', b, hpb⟩
          · have h2 := congrArg List.getLast? heq
            rw [List.getLast?_concat, List.getLast?_concat] at h2
            exact h2
          · rw [List.concat_eq_append] at hpb
            subst hpb
            have heq2 : l ++ [a] = (pre ++ c :: post') ++ [b] := by
              rw [heq]
              simp
            have h2 := congrArg List.getLast? heq2
            rw [List.getLast?_concat, List.getLast?_concat] at h2
            injection h2 with h3
            have hfalse : p a = false := by
              rw [h3]
              exact hpost b (by simp)
            rw [hpa] at hfalse
            exact Bool.noConfusion hfalse
      · have hpa' : p a = false := by
          cases h : p a with
          | false => rfl
          | true => exact absurd h hpa
        have hfa : (l ++ [a]).filter p = l.filter p := by
          simp [List.filter_append, hpa']
        rw [hfa, ih]
        constructor
        · rintro ⟨pre, post, rfl, hpc, hpost⟩
          refine ⟨pre, post ++ [a], by simp, hpc, ?_⟩
          intro x hx
          rcases List.mem_append.mp hx with h | h
          · exact hpost x h
          · rw [List.mem_singleton.mp h]
            exact hpa'
        · rintro ⟨pre, post, heq, hpc, hpost⟩
          rcases List.eq_nil_or_concat post with rfl | ⟨post', b, hpb⟩
          · have h2 := congrArg List.getLast? heq
            rw [List.getLast?_concat, List.getLast?_concat] at h2
            injection h2 with h3
            rw [← h3] at hpc
            rw [hpa'] at hpc
            exact Bool.noConfusion hpc
          · rw [List.concat_eq_append] at hpb
            subst hpb
            have heq2 : l ++ [a] = (pre ++ c :: post') ++ [b] := by
              rw [heq]
              simp
            have hb : a = b := by
              have h2 := congrArg List.getLast? heq2
              rw [List.getLast?_concat, List.getLast?_concat] at h2
              exact Option.some_injective _ h2
            subst hb
            have h3 : l = pre ++ c :: post' := List.append_cancel_right heq2
            refine ⟨pre, post', h3, hpc, ?_⟩
            intro x hx
            exact hpost x (by simp [hx])

/-- Nonempty lists have a last element. -/
theorem exists_getLast?_of_ne_nil {l : List String} (h : l ≠ []) :
    ∃ c, l.getLast? = some c :=
  ⟨l.getLast h, List.getLast?_eq_getLast l h⟩

/-- C5: for every header list containing any casing of DateTime or Date,
schema inference resolves the date role to such a header, DateTime taking
precedence when both are present; the lookup maps lower-cased header text
to original header text with last-seen winning on collisions. -/
theorem C5_date_role (hs : List String) :
    (∀ key c, colMapGet hs key = some c ↔
       ∃ pre post, hs = pre ++ c :: post ∧ strLower c = key ∧
         ∀ x ∈ post, strLower x ≠ key) ∧
    ((∃ h ∈ hs, strLower h = "datetime") →
       ∃ c, date_col hs = some c ∧ c ∈ hs ∧ strLower c = "datetime") ∧
    ((¬ ∃ h ∈ hs, strLower h = "datetime") → (∃ h ∈ hs, strLower h = "date") →
       ∃ c, date_col hs = some c ∧ c ∈ hs ∧ strLower c = "date") := by
  have hchar : ∀ key c, colMapGet hs key = some c ↔
      ∃ pre post, hs = pre ++ c :: post ∧ strLower c = key ∧
        ∀ x ∈ post, strLower x ≠ key := by
    intro key c
    rw [colMapGet, getLast?_filter_iff]
    constructor
    · rintro ⟨pre, post, heq, hpc, hpost⟩
      refine ⟨pre, post, heq, by simpa using hpc, ?_⟩
      intro x hx
      have := hpost x hx
      simpa using this
    · rintro ⟨pre, post, heq, hpc, hpost⟩
      refine ⟨pre, post, heq, by simpa using hpc, ?_⟩
      intro x hx
      have := hpost x hx
      simpa using this
  have resolve : ∀ key, (∃ h ∈ hs, strLower h = key) →
      ∃ c, colMapGet hs key = some c ∧ c ∈ hs ∧ strLower c = key := by
    intro key hex
    rcases hex with ⟨h, hh, hlow⟩
    have hmem : h ∈ hs.filter (fun c => strLower c == key) := by
      rw [List.mem_filter]
      exact ⟨hh, by simpa using hlow⟩
    have hne : hs.filter (fun c => strLower c == key) ≠ [] := by
      intro hnil
      rw [hnil] at hmem
      exact List.not_mem_nil h hmem
    obtain ⟨c, hc⟩ := exists_getLast?_of_ne_nil hne
    obtain ⟨pre, post, heq, hpc, -⟩ := (getLast?_filter_iff _ hs c).mp hc
    exact ⟨c, hc, by rw [heq]; simp, by simpa using hpc⟩
  have absent : ∀ key, (¬ ∃ h ∈ hs, strLower h = key) → colMapGet hs key = none := by
    intro key hnone
    rw [colMapGet]
    have : hs.filter (fun c => strLower c == key) = [] := by
      rw [List.filter_eq_nil_iff]
      intro a ha
      intro hbeq
      exact hnone ⟨a, ha, by simpa using hbeq⟩
    rw [this]
    rfl
  refine ⟨hchar, ?_, ?_⟩
  · intro hex
    obtain ⟨c, hc, hmem, hlow⟩ := resolve "datetime" hex
    refine ⟨c, ?_, hmem, hlow⟩
    rw [date_col, hc]
  · intro hno hex
    obtain ⟨c, hc, hmem, hlow⟩ := resolve "date" hex
    refine ⟨c, ?_, hmem, hlow⟩
    rw [date_col, absent "datetime" hno, hc]

/-- Witness for C5: among headers foo, Date, DateTime the date role resolves
to a header lower-casing to datetime. -/
theorem C5_date_role_witness :
    ∃ c, date_col ["foo", "Date", "DateTime"] = some c ∧
      c ∈ ["foo", "Date", "DateTime"] ∧ strLower c = "datetime" :=
  (C5_date_role ["foo", "Date", "DateTime"]).2.1 (by decide)

/-- One maximum step always yields a value at least as large as its two
inputs, and equal to one of them. -/
theorem maxStep_spec (acc : Option Timestamp) (x : Timestamp) :
    ∃ b, maxStep acc x = some b ∧ x.key ≤ b.key ∧ (b = x ∨ acc = some b) ∧
      ∀ a, acc = some a → a.key ≤ b.key := by
  cases acc with
  | none =>
      refine ⟨x, rfl, le_refl _, Or.inl rfl, ?_⟩
      intro a ha
      exact Option.noConfusion ha
  | some a =>
      by_cases h : a.key < x.key
      · refine ⟨x, by simp [maxStep, h], le_refl _, Or.inl rfl, ?_⟩
        intro a' ha'
        cases Option.some_injective _ ha'
        exact le_of_lt h
      · refine ⟨a, by simp [maxStep, h], le_of_not_lt h, Or.inr rfl, ?_⟩
        intro a' ha'
        cases Option.some_injective _ ha'
        exact le_refl _

/-- Folding the maximum step yields the undefined value only from the
undefined accumulator on the empty list. -/
theorem foldl_maxStep_none (l : List Timestamp) :
    ∀ acc, l.foldl maxStep acc = none ↔ acc = none ∧ l = [] := by
  induction l with
  | nil =>
      intro acc
      simp
  | cons x xs ih =>
      intro acc
      rw [List.foldl_cons]
      obtain ⟨b, hb, -, -, -⟩ := maxStep_spec acc x
      rw [hb, ih]
      simp

/-- Folding the maximum step from the undefined accumulator yields an
element of the list that dominates every element. -/
theorem foldl_maxStep_spec (l : List Timestamp) :
    ∀ (acc : Option Timestamp) (m : Timestamp), l.foldl maxStep acc = some m →
      (acc = some m ∨ m ∈ l) ∧ (∀ a, acc = some a → a.key ≤ m.key) ∧
      ∀ ts ∈ l, ts.key ≤ m.key := by
  induction l with
  | nil =>
      intro acc m h
      simp only [List.foldl_nil] at h
      refine ⟨Or.inl h, ?_, ?_⟩
      · intro a ha
        rw [ha] at h
        cases Option.some_injective _ h
        exact le_refl _
      · intro ts hts
        exact absurd hts (List.not_mem_nil ts)
  | cons x xs ih =>
      intro acc m h
      rw [List.foldl_cons] at h
      obtain ⟨b, hb, hxb, hbx, hab⟩ := maxStep_spec acc x
      rw [hb] at h
      obtain ⟨h1, h2, h3⟩ := ih (some b) m h
      have hbm : b.key ≤ m.key := h2 b rfl
      refine ⟨?_, ?_, ?_⟩
      · rcases h1 with hbm' | hmxs
        · have hbm2 : b = m := Option.some_injective _ hbm'
          rcases hbx with rfl | hacc
          · exact Or.inr (by rw [← hbm2]; exact List.mem_cons_self b xs)
          · rw [hbm2] at hacc
            exact Or.inl hacc
        · exact Or.inr (List.mem_cons_of_mem x hmxs)
      · intro a ha
        exact le_trans (hab a ha) hbm
      · intro ts hts
        rcases List.mem_cons.mp hts with rfl | h4
        · exact le_trans hxb hbm
        · exact h3 ts h4

/-- Selection sums restated as a sum over all rows, with the label filter
in the summand. -/
theorem sum_label_amounts (lbl : String) (rows : List LedgerRow) :
    ((rows.filter (fun r => r.Ty == lbl)).filterMap (fun r => r.Amount)).sum
      = (rows.map (fun r => if r.Ty = lbl then r.Amount.getD 0 else 0)).sum := by
  induction rows with
  | nil => simp
  | cons r rows ih =>
      by_cases hr : r.Ty = lbl
      · rw [List.filter_cons, if_pos (by simpa using hr), List.filterMap_cons]
        cases ha : r.Amount with
        | none =>
            simp [hr, ha, ih]
        | some q =>
            simp [hr, ha, ih]
      · rw [List.filter_cons, if_neg (by simpa using hr)]
        simp [hr, ih]

/-- C7: total_debit is the sum of Amount over rows typed debit (empty
selection summing to 0), total_credit analogous, transaction count is the
full row count including rows with undefined Amount, and latest timestamp
is the maximum defined DateTime, undefined when no row has one. -/
theorem C7_summary_metrics (rows : List LedgerRow) :
    total_debit rows = (rows.map (fun r => if r.Ty = "debit" then r.Amount.getD 0 else 0)).sum ∧
    total_credit rows = (rows.map (fun r => if r.Ty = "credit" then r.Amount.getD 0 else 0)).sum ∧
    ((∀ r ∈ rows, r.Ty ≠ "debit") → total_debit rows = 0) ∧
    ((∀ r ∈ rows, r.Ty ≠ "credit") → total_credit rows = 0) ∧
    txn_count rows = rows.length ∧
    (last_update rows = none ↔ ∀ r ∈ rows, r.DateTime = none) ∧
    ∀ m, last_update rows = some m →
      (∃ r ∈ rows, r.DateTime = some m) ∧
      ∀ r ∈ rows, ∀ ts, r.DateTime = some ts → ts.key ≤ m.key := by
  have hempty : ∀ lbl, (∀ r ∈ rows, r.Ty ≠ lbl) →
      ((rows.filter (fun r => r.Ty == lbl)).filterMap (fun r => r.Amount)).sum = 0 := by
    intro lbl hno
    have : rows.filter (fun r => r.Ty == lbl) = [] := by
      rw [List.filter_eq_nil_iff]
      intro r hrr
      simpa using hno r hrr
    rw [this]
    simp
  refine ⟨sum_label_amounts "debit" rows, sum_label_amounts "credit" rows,
    hempty "debit", hempty "credit", rfl, ?_, ?_⟩
  · rw [last_update, foldl_maxStep_none]
    simp only [true_and]
    rw [List.filterMap_eq_nil_iff]
  · intro m hm
    rw [last_update] at hm
    obtain ⟨h1, -, h3⟩ := foldl_maxStep_spec _ none m hm
    refine ⟨?_, ?_⟩
    · rcases h1 with habs | hmem
      · exact Option.noConfusion habs
      · obtain ⟨r, hrr, hr2⟩ := List.mem_filterMap.mp hmem
        exact ⟨r, hrr, hr2⟩
    · intro r hrr ts hts
      exact h3 ts (List.mem_filterMap.mpr ⟨r, hrr, hts⟩)

/-- Witness for C7 at the normalized scenario table: one transaction, no
credit rows, and the 2024-01-05 timestamp is attained. -/
theorem C7_summary_metrics_witness :
    txn_count (normalize sampleTable) = 1 ∧
    total_credit (normalize sampleTable) = 0 ∧
    ∃ r ∈ normalize sampleTable, r.DateTime = some ⟨2024, 1, 5, 0, 0, 0⟩ := by
  have h := C7_summary_metrics (normalize sampleTable)
  refine ⟨h.2.2.2.2.1.trans (by decide), h.2.2.2.1 (by decide), ?_⟩
  exact (h.2.2.2.2.2.2 ⟨2024, 1, 5, 0, 0, 0⟩ (by decide)).1

/-- Linear search finds the element at the first satisfying index. -/
theorem find?_eq_some_of_first {α : Type} (p : α → Bool) :
    ∀ (l : List α) (i : Nat) (a : α), l[i]? = some a → p a = true →
      (∀ j b, j < i → l[j]? = some b → p b = false) → l.find? p = some a := by
  intro l
  induction l with
  | nil =>
      intro i a hget _ _
      simp at hget
  | cons x xs ih =>
      intro i a hget hpa hmin
      cases i with
      | zero =>
          simp only [List.getElem?_cons_zero] at hget
          cases Option.some_injective _ hget
          exact List.find?_cons_of_pos xs hpa
      | succ i =>
          have hx : p x = false := hmin 0 x (Nat.succ_pos i) (by simp)
          rw [List.find?_cons_of_neg xs (by simp [hx])]
          refine ih i a (by simpa using hget) hpa ?_
          intro j b hj hb
          exact hmin (j + 1) b (Nat.succ_lt_succ hj) (by simpa using hb)

/-- C3: if an amount column was resolved, each row Amount is the numeric
coercion of that column's cell (unparseable cells becoming undefined, rows
kept); otherwise Amount comes from the first column in original header
order whose values are numeric-dtyped across the table; with no such
column, Amount is undefined for every row. -/
theorem C3_amount_resolution (t : Table) :
    (∀ c, amount_col t.headers = some c →
       ∀ r ∈ t.rows, (mkRow t r).Amount = toNumeric (cellOf t.headers r c)) ∧
    (amount_col t.headers = none →
       (∀ i, i < t.headers.length → isNumericCol t i = true →
          (∀ j, j < i → isNumericCol t j = false) →
          ∀ r ∈ t.rows, (mkRow t r).Amount = toNumeric (r.getD i Cell.na)) ∧
       ((∀ i, i < t.headers.length → isNumericCol t i = false) →
          ∀ r ∈ t.rows, (mkRow t r).Amount = none)) := by
  constructor
  · intro c hc r hrr
    show rowAmount t r = _
    rw [rowAmount, hc]
  · intro hnone
    constructor
    · intro i hi hnum hmin r hrr
      have hfind : fallbackNumIdx t = some i := by
        refine find?_eq_some_of_first _ (List.range t.headers.length) i i ?_ hnum ?_
        · simp [hi]
        · intro j b hj hb
          have hjn : j < t.headers.length := lt_trans hj hi
          have hbj : b = j := by
            rw [List.getElem?_range hjn] at hb
            exact (Option.some_injective _ hb).symm
          rw [hbj]
          exact hmin j hj
      show rowAmount t r = _
      rw [rowAmount, hnone, hfind]
    · intro hall r hrr
      have hfind : fallbackNumIdx t = none := by
        rw [fallbackNumIdx]
        rw [List.find?_eq_none]
        intro x hx
        simp [hall x (List.mem_range.mp hx)]
      show rowAmount t r = _
      rw [rowAmount, hnone, hfind]

/-- Witness for C3: the resolved Amount column of the scenario table gives
-50, and the fallback numeric column of the timestamp/value table gives
5. -/
theorem C3_amount_resolution_witness :
    (mkRow sampleTable [Cell.str "2024-01-05", Cell.str "-50", Cell.str "Debit ", Cell.str "coffee"]).Amount = some (-50) ∧
    (mkRow fallbackTable [Cell.str "x", Cell.num 5]).Amount = some 5 := by
  have h1 := (C3_amount_resolution sampleTable).1 "Amount" (by decide)
      [Cell.str "2024-01-05", Cell.str "-50", Cell.str "Debit ", Cell.str "coffee"] (by decide)
  have h2 := ((C3_amount_resolution fallbackTable).2 (by decide)).1 1 (by decide) (by decide)
      (by decide) [Cell.str "x", Cell.num 5] (by decide)
  exact ⟨h1.trans (by decide), h2.trans (by decide)⟩

/-- C9 (amended): resolve_credentials returns a stored structured mapping
unchanged; otherwise it strips surrounding whitespace, then one layer of
triple-double-quote wrapping if present on both ends, then one layer of
triple-single-quote wrapping if present on both ends (so a value nested in
both wrappings is unwrapped twice), attempts a strict JSON parse, and on
failure replaces every literal backslash-n with a newline and retries; it
fails exactly when the fixed key is absent or both parse attempts fail,
propagating the second parse error. -/
theorem C9_resolver {J : Type} (parse : String → Except String J)
    (secrets : String → Option (SecretVal J)) :
    (secrets "gcp_service_account" = none →
       load_service_account_from_secrets parse secrets = Except.error ConfigError.keyMissing) ∧
    (∀ j, secrets "gcp_service_account" = some (SecretVal.dict j) →
       load_service_account_from_secrets parse secrets = Except.ok j) ∧
    (∀ raw, secrets "gcp_service_account" = some (SecretVal.str raw) →
       (∀ j, parse (cleanSecret raw) = Except.ok j →
          load_service_account_from_secrets parse secrets = Except.ok j) ∧
       ∀ e, parse (cleanSecret raw) = Except.error e →
         (∀ j, parse (fixNewlines (cleanSecret raw)) = Except.ok j →
            load_service_account_from_secrets parse secrets = Except.ok j) ∧
         ∀ e2, parse (fixNewlines (cleanSecret raw)) = Except.error e2 →
           load_service_account_from_secrets parse secrets
             = Except.error (ConfigError.parseError e2)) ∧
    ((∃ err, load_service_account_from_secrets parse secrets = Except.error err) ↔
       secrets "gcp_service_account" = none ∨
       ∃ raw e e2, secrets "gcp_service_account" = some (SecretVal.str raw) ∧
         parse (cleanSecret raw) = Except.error e ∧
         parse (fixNewlines (cleanSecret raw)) = Except.error e2) := by
  refine ⟨?_, ?_, ?_, ?_⟩
  · intro h
    simp [load_service_account_from_secrets, h]
  · intro j h
    simp [load_service_account_from_secrets, h]
  · intro raw h
    constructor
    · intro j hp
      simp [load_service_account_from_secrets, h, hp]
    · intro e hp
      constructor
      · intro j hp2
        simp [load_service_account_from_secrets, h, hp, hp2]
      · intro e2 hp2
        simp [load_service_account_from_secrets, h, hp, hp2]
  · cases hsec : secrets "gcp_service_account" with
    | none =>
        have hload : load_service_account_from_secrets parse secrets
            = Except.error ConfigError.keyMissing := by
          simp [load_service_account_from_secrets, hsec]
        rw [hload]
        exact ⟨fun _ => Or.inl rfl, fun _ => ⟨ConfigError.keyMissing, rfl⟩⟩
    | some v =>
        cases v with
        | dict j =>
            have hload : load_service_account_from_secrets parse secrets = Except.ok j := by
              simp [load_service_account_from_secrets, hsec]
            rw [hload]
            constructor
            · rintro ⟨err, herr⟩
              exact Except.noConfusion herr
            · rintro (h | ⟨raw', e, e2, hr, -, -⟩)
              · exact Option.noConfusion h
              · exact SecretVal.noConfusion (Option.some_injective _ hr)
        | str raw =>
            cases hp : parse (cleanSecret raw) with
            | ok j =>
                have hload : load_service_account_from_secrets parse secrets = Except.ok j := by
                  simp [load_service_account_from_secrets, hsec, hp]
                rw [hload]
                constructor
                · rintro ⟨err, herr⟩
                  exact Except.noConfusion herr
                · rintro (h | ⟨raw', e, e2, hr, he, -⟩)
                  · exact Option.noConfusion h
                  · have hrr : raw = raw' := by
                      have h2 := Option.some_injective _ hr
                      injection h2
                    rw [← hrr] at he
                    rw [hp] at he
                    exact Except.noConfusion he
            | error e =>
                cases hp2 : parse (fixNewlines (cleanSecret raw)) with
                | ok j =>
                    have hload : load_service_account_from_secrets parse secrets
                        = Except.ok j := by
                      simp [load_service_account_from_secrets, hsec, hp, hp2]
                    rw [hload]
                    constructor
                    · rintro ⟨err, herr⟩
                      exact Except.noConfusion herr
                    · rintro (h | ⟨raw', e', e2, hr, -, he2⟩)
                      · exact Option.noConfusion h
                      · have hrr : raw = raw' := by
                          have h2 := Option.some_injective _ hr
                          injection h2
                        rw [← hrr] at he2
                        rw [hp2] at he2
                        exact Except.noConfusion he2
                | error e2 =>
                    have hload : load_service_account_from_secrets parse secrets
                        = Except.error (ConfigError.parseError e2) := by
                      simp [load_service_account_from_secrets, hsec, hp, hp2]
                    rw [hload]
                    exact ⟨fun _ => Or.inr ⟨raw, e, e2, rfl, hp, hp2⟩,
                      fun _ => ⟨ConfigError.parseError e2, rfl⟩⟩

/-- Witness for C9 at the nested-wrapping fixture with the minimal parser:
resolution succeeds with the parsed object. -/
theorem C9_resolver_witness :
    load_service_account_from_secrets miniParse cexSecrets = Except.ok MiniJson.obj :=
  ((C9_resolver miniParse cexSecrets).2.2.1
      "\"\"\"\x27\x27\x27\x7b\x7d\x27\x27\x27\"\"\"" rfl).1 MiniJson.obj rfl

/-- Counterexample to C9 as stated: on a credential string wrapped in
triple-double quotes around triple-single quotes, the source unwraps both
layers and succeeds, while the one-layer unwrapping of the claim leaves a
string both parse attempts reject, so resolution fails. -/
theorem C9_counterexample :
    load_service_account_from_secrets miniParse cexSecrets = Except.ok MiniJson.obj ∧
    resolve_credentials_claim miniParse cexSecrets
      = Except.error (ConfigError.parseError "Expecting value") :=
  ⟨rfl, rfl⟩

/-- Lookup in the graph of a function over a key list. -/
theorem lookup_map_graph (f : (String × String) → Rat) :
    ∀ (l : List (String × String)) (a : String × String),
      (l.map (fun k => (k, f k))).lookup a = if a ∈ l then some (f a) else none := by
  intro l
  induction l with
  | nil =>
      intro a
      simp
  | cons k ks ih =>
      intro a
      rw [List.map_cons, List.lookup_cons]
      by_cases hak : a = k
      · subst hak
        simp
      · have hbeq : (a == k) = false := by
          rw [beq_eq_false_iff_ne]
          exact hak
        rw [hbeq, ih]
        simp [List.mem_cons, hak]

/-- Membership in the distinct group keys of the grouped table. -/
theorem mem_groupKeys (rows : List LedgerRow) (k : String × String) :
    k ∈ groupKeys rows ↔ ∃ r ∈ rows, (r.Month, r.Ty) = k := by
  rw [groupKeys, (List.perm_insertionSort keyLE _).mem_iff, List.mem_dedup, List.mem_map]

/-- Membership in the pivot row labels equals having the month among the
rows. -/
theorem mem_pivotMonths (rows : List LedgerRow) (m : String) :
    m ∈ pivotMonths rows ↔ ∃ r ∈ rows, r.Month = m := by
  rw [pivotMonths, (List.perm_insertionSort _ _).mem_iff, List.mem_dedup]
  constructor
  · intro hmem
    obtain ⟨g, hg, hg1⟩ := List.mem_map.mp hmem
    obtain ⟨kk, hkk, hkg⟩ := List.mem_map.mp hg
    obtain ⟨r, hrr, hrk⟩ := (mem_groupKeys rows kk).mp hkk
    refine ⟨r, hrr, ?_⟩
    have : kk.1 = m := by
      rw [← hg1, ← hkg]
    rw [← this, ← hrk]
  · rintro ⟨r, hrr, hrm⟩
    refine List.mem_map.mpr ⟨((r.Month, r.Ty), groupSum rows r.Month r.Ty), ?_, hrm⟩
    refine List.mem_map.mpr ⟨(r.Month, r.Ty), ?_, rfl⟩
    exact (mem_groupKeys rows _).mpr ⟨r, hrr, rfl⟩

/-- Membership in the pivot column labels equals having the type among the
rows. -/
theorem mem_pivotTypes (rows : List LedgerRow) (ty : String) :
    ty ∈ pivotTypes rows ↔ ∃ r ∈ rows, r.Ty = ty := by
  rw [pivotTypes, (List.perm_insertionSort _ _).mem_iff, List.mem_dedup]
  constructor
  · intro hmem
    obtain ⟨g, hg, hg1⟩ := List.mem_map.mp hmem
    obtain ⟨kk, hkk, hkg⟩ := List.mem_map.mp hg
    obtain ⟨r, hrr, hrk⟩ := (mem_groupKeys rows kk).mp hkk
    refine ⟨r, hrr, ?_⟩
    have : kk.2 = ty := by
      rw [← hg1, ← hkg]
    rw [← this, ← hrk]
  · rintro ⟨r, hrr, hrm⟩
    refine List.mem_map.mpr ⟨((r.Month, r.Ty), groupSum rows r.Month r.Ty), ?_, hrm⟩
    refine List.mem_map.mpr ⟨(r.Month, r.Ty), ?_, rfl⟩
    exact (mem_groupKeys rows _).mpr ⟨r, hrr, rfl⟩

/-- Membership in the claim-side month labels. -/
theorem mem_claimMonths (rows : List LedgerRow) (m : String) :
    m ∈ claimMonths rows ↔ ∃ r ∈ rows, r.Month = m := by
  rw [claimMonths, (List.perm_insertionSort _ _).mem_iff, List.mem_dedup, List.mem_map]

/-- Membership in the claim-side type labels. -/
theorem mem_claimTypes (rows : List LedgerRow) (ty : String) :
    ty ∈ claimTypes rows ↔ ∃ r ∈ rows, r.Ty = ty := by
  rw [claimTypes, (List.perm_insertionSort _ _).mem_iff, List.mem_dedup, List.mem_map]

/-- A (Month, Type) combination carried by no row sums to 0. -/
theorem groupSum_eq_zero_of_not_mem (rows : List LedgerRow) (m ty : String)
    (h : ∀ r ∈ rows, ¬(r.Month = m ∧ r.Ty = ty)) : groupSum rows m ty = 0 := by
  rw [groupSum]
  have hnil : rows.filter (fun r => r.Month == m && r.Ty == ty) = [] := by
    rw [List.filter_eq_nil_iff]
    intro r hrr hb
    rw [Bool.and_eq_true, beq_iff_eq, beq_iff_eq] at hb
    exact h r hrr hb
  rw [hnil]
  simp

/-- Sorted distinct labels with equal membership are the same list. -/
theorem sortedDedup_ext (l₁ l₂ : List String)
    (h : ∀ a, a ∈ l₁ ↔ a ∈ l₂) :
    (l₁.dedup).insertionSort (fun a b => a ≤ b)
      = (l₂.dedup).insertionSort (fun a b => a ≤ b) := by
  apply List.eq_of_perm_of_sorted _ (List.sorted_insertionSort _ _)
    (List.sorted_insertionSort _ _)
  apply (List.perm_ext_iff_of_nodup ?_ ?_).mpr
  · intro a
    rw [(List.perm_insertionSort _ _).mem_iff, (List.perm_insertionSort _ _).mem_iff,
      List.mem_dedup, List.mem_dedup]
    exact h a
  · exact (List.perm_insertionSort _ _).nodup_iff.mpr (List.nodup_dedup _)
  · exact (List.perm_insertionSort _ _).nodup_iff.mpr (List.nodup_dedup _)

/-- C6: the monthly type matrix has one row per distinct Month of the
normalized table (plain-string ascending, so the NaT bucket sorts
lexically) and one column per distinct Type, each entry being the sum of
Amount over the rows of that (Month, Type) group, with missing combinations
filled with 0. -/
theorem C6_monthly_matrix (rows : List LedgerRow) :
    monthly_pivot rows
      = (claimMonths rows).map (fun m =>
          (m, (claimTypes rows).map (fun ty => (ty, groupSum rows m ty)))) ∧
    (claimMonths rows).Sorted (fun a b => a ≤ b) ∧ (claimMonths rows).Nodup ∧
    (∀ m, m ∈ claimMonths rows ↔ ∃ r ∈ rows, r.Month = m) ∧
    (claimTypes rows).Sorted (fun a b => a ≤ b) ∧ (claimTypes rows).Nodup ∧
    (∀ ty, ty ∈ claimTypes rows ↔ ∃ r ∈ rows, r.Ty = ty) := by
  have hMon : pivotMonths rows = claimMonths rows := by
    rw [pivotMonths, claimMonths]
    apply sortedDedup_ext
    intro a
    have h1 := mem_pivotMonths rows a
    have h2 := mem_claimMonths rows a
    rw [pivotMonths, (List.perm_insertionSort _ _).mem_iff, List.mem_dedup] at h1
    rw [claimMonths, (List.perm_insertionSort _ _).mem_iff, List.mem_dedup] at h2
    rw [h1, h2]
  have hTyp : pivotTypes rows = claimTypes rows := by
    rw [pivotTypes, claimTypes]
    apply sortedDedup_ext
    intro a
    have h1 := mem_pivotTypes rows a
    have h2 := mem_claimTypes rows a
    rw [pivotTypes, (List.perm_insertionSort _ _).mem_iff, List.mem_dedup] at h1
    rw [claimTypes, (List.perm_insertionSort _ _).mem_iff, List.mem_dedup] at h2
    rw [h1, h2]
  have hentry : ∀ m ty,
      (match (monthly rows).lookup (m, ty) with
       | some v => v
       | none => 0) = groupSum rows m ty := by
    intro m ty
    rw [monthly, lookup_map_graph (fun k => groupSum rows k.1 k.2) (groupKeys rows) (m, ty)]
    by_cases hmem : (m, ty) ∈ groupKeys rows
    · rw [if_pos hmem]
    · rw [if_neg hmem]
      refine (groupSum_eq_zero_of_not_mem rows m ty ?_).symm
      intro r hrr hcon
      exact hmem ((mem_groupKeys rows (m, ty)).mpr ⟨r, hrr, by rw [hcon.1, hcon.2]⟩)
  refine ⟨?_, List.sorted_insertionSort _ _,
    (List.perm_insertionSort _ _).nodup_iff.mpr (List.nodup_dedup _),
    mem_claimMonths rows, List.sorted_insertionSort _ _,
    (List.perm_insertionSort _ _).nodup_iff.mpr (List.nodup_dedup _),
    mem_claimTypes rows⟩
  rw [monthly_pivot, hMon, hTyp]
  apply List.map_congr_left
  intro m hm2
  refine congrArg (Prod.mk m) ?_
  apply List.map_congr_left
  intro ty hty
  exact congrArg (Prod.mk ty) (hentry m ty)

/-- Witness for C6 at the normalized fallback table: the matrix equation
instantiates, and the NaT bucket is a month label attained by a row. -/
theorem C6_monthly_matrix_witness :
    monthly_pivot (normalize fallbackTable)
      = (claimMonths (normalize fallbackTable)).map (fun m =>
          (m, (claimTypes (normalize fallbackTable)).map
            (fun ty => (ty, groupSum (normalize fallbackTable) m ty)))) ∧
    ∃ r ∈ normalize fallbackTable, r.Month = "NaT" :=
  ⟨(C6_monthly_matrix (normalize fallbackTable)).1,
   ((C6_monthly_matrix (normalize fallbackTable)).2.2.2.1 "NaT").mp (by decide)⟩

end ExpenseApp
